import Mathlib

/-!
Verification of the NarouCast resilient task-pipeline core.

Shallow embedding of:
* `Semaphore` (src/shared/batch-processor.js)
* `BatchProcessor.processBatch` / `processWithRetry` (src/shared/batch-processor.js)
* `withRetry` (src/shared/errors.js)
* `ProviderMetrics._updateCircuitBreaker` (error-rate monitor)
* `ChapterNavigator.processChapterSequence` (chapter navigator)
* `LRUCache` (src/shared/cache-manager.js)

JavaScript numbers that only ever hold small integers are modelled as `Nat`
(or `Int` where the source can go negative); delay computations over
non-integral multipliers are modelled as `ℚ`.  Asynchrony is modelled by the
sequential interleaving the single-threaded event loop produces: operations
are functions on explicit state.  A thrown JS error is an `Except.error`.
-/

deriving instance DecidableEq for Except

namespace NarouCast

/-! ## Semaphore (src/shared/batch-processor.js, lines 7-95)

State of the JS `Semaphore`: `capacity`, a `running` counter and a FIFO
`queue` of pending acquirers.  Waiters are identified by a `Nat` id so that
the grant order can be observed.  `running` is an `Int` because the source
decrements it unconditionally in `release()`.  The `stats` bookkeeping fields
of the source do not influence control flow and are omitted. -/

structure Semaphore where
  capacity : Int
  running : Int
  queue : List Nat
  deriving Repr, DecidableEq

def Semaphore.init (capacity : Int) : Semaphore :=
  { capacity := capacity, running := 0, queue := [] }

/-- `acquire()`: if `running < capacity` the permit is granted immediately
(`running++`); otherwise the caller is pushed onto the tail of `queue`. -/
def Semaphore.acquire (s : Semaphore) (waiter : Nat) : Semaphore :=
  if s.running < s.capacity then { s with running := s.running + 1 }
  else { s with queue := s.queue ++ [waiter] }

/-- `release()`: `running--`; then, if the queue is non-empty, the waiter at
the head is shifted off, `running++`, and that waiter's promise resolves.
Returns the new state together with the waiter granted the freed permit. -/
def Semaphore.release (s : Semaphore) : Semaphore × Option Nat :=
  match s.queue with
  | [] => ({ s with running := s.running - 1 }, none)
  | w :: rest => ({ s with running := s.running - 1 + 1, queue := rest }, some w)

/-- `use(task)`: `acquire`, run the task, `release` in a `finally`.  The task
is a value of `Except ε α`: `Except.error` models a throw.  The release
happens regardless of the task's outcome, and the task's outcome (value or
throw) is what `use` produces. -/
def Semaphore.use (s : Semaphore) (task : Except ε α) : Semaphore × Except ε α :=
  let s1 := s.acquire 0
  ((s1.release).1, task)

inductive SemEvent where
  | acq (waiter : Nat)
  | rel
  deriving Repr, DecidableEq

/-- One event of a client trace: an `acquire()` call by `waiter`, or a
`release()` call by some current permit holder. -/
def Semaphore.step (s : Semaphore) : SemEvent → Semaphore × Option Nat
  | .acq w => (s.acquire w, none)
  | .rel => s.release

/-- Run a trace of acquire/release events. -/
def semRun (s : Semaphore) : List SemEvent → Semaphore
  | [] => s
  | e :: es => semRun (s.step e).1 es

/-- The waiters taken from the queue and granted a permit, in grant order. -/
def semGrants (s : Semaphore) : List SemEvent → List Nat
  | [] => []
  | e :: es => ((s.step e).2).toList ++ semGrants (s.step e).1 es

/-- The waiters that had to queue, in arrival (enqueue) order. -/
def semArrivals (s : Semaphore) : List SemEvent → List Nat
  | [] => []
  | .acq w :: es =>
      (if s.running < s.capacity then [] else [w]) ++ semArrivals (s.acquire w) es
  | .rel :: es => semArrivals (s.release).1 es

lemma semRun_running_le (cap : Int) (es : List SemEvent) :
    ∀ s : Semaphore, s.capacity = cap → s.running ≤ cap →
      (semRun s es).running ≤ cap := by
  induction es with
  | nil => intro s hc hr; simpa [semRun] using hr
  | cons e es ih =>
    intro s hc hr
    subst hc
    cases e with
    | acq w =>
      by_cases h : s.running < s.capacity
      · exact ih _ (by simp [Semaphore.step, Semaphore.acquire, h])
          (by simp [Semaphore.step, Semaphore.acquire, h]; omega)
      · exact ih _ (by simp [Semaphore.step, Semaphore.acquire, h])
          (by simp [Semaphore.step, Semaphore.acquire, h]; omega)
    | rel =>
      cases hq : s.queue with
      | nil =>
        exact ih _ (by simp [Semaphore.step, Semaphore.release, hq])
          (by simp [Semaphore.step, Semaphore.release, hq]; omega)
      | cons w rest =>
        exact ih _ (by simp [Semaphore.step, Semaphore.release, hq])
          (by simp [Semaphore.step, Semaphore.release, hq]; omega)

lemma semRun_fifo (es : List SemEvent) :
    ∀ s : Semaphore, s.queue ++ semArrivals s es = semGrants s es ++ (semRun s es).queue := by
  induction es with
  | nil => intro s; simp [semArrivals, semGrants, semRun]
  | cons e es ih =>
    intro s
    cases e with
    | acq w =>
      by_cases h : s.running < s.capacity
      · simpa [semArrivals, semGrants, semRun, Semaphore.step, Semaphore.acquire, h]
          using ih (s.acquire w)
      · have := ih (s.acquire w)
        simp [semArrivals, semGrants, semRun, Semaphore.step, Semaphore.acquire, h] at this ⊢
        simpa using this
    | rel =>
      cases hq : s.queue with
      | nil =>
        simpa [semArrivals, semGrants, semRun, Semaphore.step, Semaphore.release, hq]
          using ih (s.release).1
      | cons w rest =>
        have := ih (s.release).1
        simp [Semaphore.release, hq] at this
        simp [semArrivals, semGrants, semRun, Semaphore.step, Semaphore.release, hq, this]

/-- C1.  For every sequence of acquire/release calls (no resize) starting
from a fresh semaphore, `running` never exceeds `capacity`; releases grant
permits to queued waiters in FIFO order (the grant sequence is exactly a
prefix of the enqueue sequence, the rest still queued in arrival order, and
each individual release resumes exactly the head of the queue); and
`use(task)` releases its permit even when the task throws, so the running
count after `use` equals its value before the call and the task's outcome is
propagated unchanged. -/
theorem semaphore_bound_fifo_use (cap : Int) (es : List SemEvent)
    (s : Semaphore) (task : Except ε α)
    (hcap : 0 ≤ cap) (hrun : s.running < s.capacity) (hq : s.queue = []) :
    (semRun (Semaphore.init cap) es).running ≤ cap ∧
    semArrivals (Semaphore.init cap) es
      = semGrants (Semaphore.init cap) es ++ (semRun (Semaphore.init cap) es).queue ∧
    (Semaphore.release s).2 = s.queue.head? ∧
    ((s.use task).1.running = s.running ∧ (s.use task).2 = task) := by
  refine ⟨semRun_running_le cap es _ rfl (by simpa [Semaphore.init] using hcap), ?_, ?_, ?_, rfl⟩
  · have := semRun_fifo es (Semaphore.init cap)
    simpa [Semaphore.init] using this
  · cases hq' : s.queue <;> simp [Semaphore.release, hq']
  · simp [Semaphore.use, Semaphore.acquire, Semaphore.release, hrun, hq]

/-- Witness for `semaphore_bound_fifo_use` at capacity 2, a concrete trace,
and a throwing task. -/
theorem semaphore_bound_fifo_use_witness :
    (0 : Int) ≤ 2 ∧
    ((Semaphore.init 2).running < (Semaphore.init 2).capacity ∧
      (Semaphore.init 2).queue = []) ∧
    ((semRun (Semaphore.init 2)
        [.acq 1, .acq 2, .acq 3, .acq 4, .rel, .rel]).running ≤ 2 ∧
      semArrivals (Semaphore.init 2) [.acq 1, .acq 2, .acq 3, .acq 4, .rel, .rel]
        = semGrants (Semaphore.init 2) [.acq 1, .acq 2, .acq 3, .acq 4, .rel, .rel]
          ++ (semRun (Semaphore.init 2) [.acq 1, .acq 2, .acq 3, .acq 4, .rel, .rel]).queue ∧
      (Semaphore.release (Semaphore.init 2)).2 = (Semaphore.init 2).queue.head? ∧
      (((Semaphore.init 2).use (Except.error "boom" : Except String Nat)).1.running
          = (Semaphore.init 2).running ∧
        ((Semaphore.init 2).use (Except.error "boom" : Except String Nat)).2
          = Except.error "boom")) :=
  ⟨by decide, ⟨by decide, by decide⟩,
    semaphore_bound_fifo_use 2 [.acq 1, .acq 2, .acq 3, .acq 4, .rel, .rel]
      (Semaphore.init 2) (Except.error "boom") (by decide) (by decide) (by decide)⟩

/-! ## Circuit breaker (`ProviderMetrics._updateCircuitBreaker`)

Per-provider breaker state.  The JS `'open'` state is called `opened` here
(`open` is a Lean keyword).  Times are milliseconds as `Nat`.  The JS
comparison `now >= circuitBreaker.nextRetryAt` with a `null` field coerces
`null` to `0`, modelled by `Option.getD 0`. -/

inductive CBState where
  | closed
  | opened
  | halfOpen
  deriving Repr, DecidableEq

structure CircuitBreaker where
  state : CBState
  failures : Nat
  lastFailure : Option Nat
  openedAt : Option Nat
  nextRetryAt : Option Nat
  deriving Repr, DecidableEq

def CircuitBreaker.init : CircuitBreaker :=
  { state := .closed, failures := 0, lastFailure := none,
    openedAt := none, nextRetryAt := none }

inductive CBSignal where
  | success
  | failure
  deriving Repr, DecidableEq

/-- `_updateCircuitBreaker(result)` at time `now`. -/
def updateCircuitBreaker (now : Nat) (result : CBSignal) (cb : CircuitBreaker) :
    CircuitBreaker :=
  match cb.state with
  | .closed =>
    match result with
    | .failure =>
      let f := cb.failures + 1
      if f ≥ 5 then
        { state := .opened, failures := f, lastFailure := some now,
          openedAt := some now, nextRetryAt := some (now + 60000) }
      else
        { cb with failures := f, lastFailure := some now }
    | .success => { cb with failures := 0 }
  | .opened =>
    if now ≥ cb.nextRetryAt.getD 0 then { cb with state := .halfOpen } else cb
  | .halfOpen =>
    match result with
    | .success =>
      { state := .closed, failures := 0, lastFailure := cb.lastFailure,
        openedAt := none, nextRetryAt := none }
    | .failure =>
      let f := cb.failures + 1
      { state := .opened, failures := f, lastFailure := cb.lastFailure,
        openedAt := some now,
        nextRetryAt := some (now + min 300000 (60000 * 2 ^ f)) }

/-- Run a trace of `(now, signal)` record events through the breaker. -/
def cbRun (cb : CircuitBreaker) : List (Nat × CBSignal) → CircuitBreaker
  | [] => cb
  | (now, r) :: es => cbRun (updateCircuitBreaker now r cb) es

/-- Reachability invariant: whenever the breaker is open or half-open, at
least 5 failures have accumulated and `nextRetryAt = openedAt + c` for a
cooldown `c` between 60 s and 5 min. -/
def CBInv (cb : CircuitBreaker) : Prop :=
  cb.state = .opened ∨ cb.state = .halfOpen →
    5 ≤ cb.failures ∧
      ∃ t c, cb.openedAt = some t ∧ cb.nextRetryAt = some (t + c) ∧
        60000 ≤ c ∧ c ≤ 300000

lemma cbInv_init : CBInv CircuitBreaker.init := by
  intro h; simp [CircuitBreaker.init] at h

lemma cbInv_update (now : Nat) (r : CBSignal) (cb : CircuitBreaker)
    (h : CBInv cb) : CBInv (updateCircuitBreaker now r cb) := by
  cases hs : cb.state with
  | closed =>
    cases r with
    | success => intro hc; simp [updateCircuitBreaker, hs] at hc
    | failure =>
      by_cases h5 : cb.failures + 1 ≥ 5
      · intro _
        refine ⟨by simp [updateCircuitBreaker, hs, h5], now, 60000, ?_⟩
        simp [updateCircuitBreaker, hs, h5]
      · intro hc; simp [updateCircuitBreaker, hs, h5] at hc
  | opened =>
    intro _
    obtain ⟨h5, t, c, ho, hn, hc1, hc2⟩ := h (Or.inl hs)
    constructor
    · simp only [updateCircuitBreaker, hs]
      split <;> simpa using h5
    · refine ⟨t, c, ?_, ?_, hc1, hc2⟩ <;>
        simp only [updateCircuitBreaker, hs] <;> split <;> simp [ho, hn]
  | halfOpen =>
    have hi := h (Or.inr hs)
    cases r with
    | success => intro hc; simp [updateCircuitBreaker, hs] at hc
    | failure =>
      intro _
      obtain ⟨h5, t, c, ho, hn, hc1, hc2⟩ := hi
      refine ⟨by simp [updateCircuitBreaker, hs]; omega,
        now, min 300000 (60000 * 2 ^ (cb.failures + 1)), ?_⟩
      have hpow : (64 : Nat) ≤ 2 ^ (cb.failures + 1) := by
        calc (64 : Nat) = 2 ^ 6 := by norm_num
        _ ≤ 2 ^ (cb.failures + 1) := Nat.pow_le_pow_right (by norm_num) (by omega)
      have hmin : min 300000 (60000 * 2 ^ (cb.failures + 1)) = 300000 := by
        have : (300000 : Nat) ≤ 60000 * 2 ^ (cb.failures + 1) := by
          calc (300000 : Nat) ≤ 60000 * 64 := by norm_num
          _ ≤ 60000 * 2 ^ (cb.failures + 1) := Nat.mul_le_mul_left _ hpow
        omega
      simp [updateCircuitBreaker, hs, hmin]

lemma cbInv_run (es : List (Nat × CBSignal)) :
    ∀ cb, CBInv cb → CBInv (cbRun cb es) := by
  induction es with
  | nil => intro cb h; simpa [cbRun] using h
  | cons e es ih =>
    intro cb h
    exact ih _ (cbInv_update e.1 e.2 cb h)

/-- C2, as written, is false at the 5-minute cap: a trace that reaches
half-open twice and fails both times gets the same 300 000 ms cooldown on the
second reopen, not a strictly longer one.  Trace: 5 failures at t = 0 open
the breaker (cooldown 60 000); an event at t = 60 000 moves it to half-open;
a failure there reopens it with cooldown 300 000; an event at t = 360 000
moves it to half-open again; the failure there reopens it with cooldown
300 000 again — equal, not strictly longer. -/
theorem circuit_breaker_cooldown_not_strictly_increasing :
    (let cb1 := cbRun CircuitBreaker.init
        [(0, .failure), (0, .failure), (0, .failure), (0, .failure), (0, .failure),
         (60000, .failure), (60000, .failure)];
      let cb2 := cbRun cb1 [(360000, .failure), (360000, .failure)];
      cb1.state = .opened ∧ cb2.state = .opened ∧
        cb1.nextRetryAt.getD 0 - cb1.openedAt.getD 0 = 300000 ∧
        cb2.nextRetryAt.getD 0 - cb2.openedAt.getD 0 = 300000 ∧
        ¬ (cb1.nextRetryAt.getD 0 - cb1.openedAt.getD 0
            < cb2.nextRetryAt.getD 0 - cb2.openedAt.getD 0)) := by
  decide

/-- C2 amended: from `closed`, the 5th accumulated failure (a success resets
the count) opens the breaker with next-retry 60 s after the open timestamp;
a success in `half-open` closes it and resets the count; and a failure in
`half-open` reopens it with cooldown `min(5 min, 60 s · 2^failures)`, which
for every breaker reachable from the initial state is at least as long as the
previous cooldown — strictly longer only until the 5-minute cap is reached
(the first reopen, 300 000 ms after an initial 60 000 ms, is strictly
longer). -/
theorem circuit_breaker_transitions (now : Nat) (cb cbc cbh : CircuitBreaker)
    (es : List (Nat × CBSignal))
    (hreach : cb = cbRun CircuitBreaker.init es) (hho : cb.state = .halfOpen)
    (hc : cbc.state = .closed) (hc4 : cbc.failures = 4)
    (hh : cbh.state = .halfOpen) :
    ((updateCircuitBreaker now .failure cbc).state = .opened ∧
      (updateCircuitBreaker now .failure cbc).failures = 5 ∧
      (updateCircuitBreaker now .failure cbc).openedAt = some now ∧
      (updateCircuitBreaker now .failure cbc).nextRetryAt = some (now + 60000)) ∧
    ((updateCircuitBreaker now .success cbh).state = .closed ∧
      (updateCircuitBreaker now .success cbh).failures = 0) ∧
    ((updateCircuitBreaker now .failure cb).state = .opened ∧
      (updateCircuitBreaker now .failure cb).nextRetryAt
        = some (now + min 300000 (60000 * 2 ^ (cb.failures + 1))) ∧
      cb.nextRetryAt.getD 0 - cb.openedAt.getD 0
        ≤ min 300000 (60000 * 2 ^ (cb.failures + 1))) ∧
    (let first := cbRun CircuitBreaker.init
        [(0, .failure), (0, .failure), (0, .failure), (0, .failure), (0, .failure)];
      let reopened := cbRun first [(60000, .failure), (60000, .failure)];
      first.nextRetryAt.getD 0 - first.openedAt.getD 0 = 60000 ∧
      reopened.nextRetryAt.getD 0 - reopened.openedAt.getD 0 = 300000 ∧
      first.nextRetryAt.getD 0 - first.openedAt.getD 0
        < reopened.nextRetryAt.getD 0 - reopened.openedAt.getD 0) := by
  refine ⟨⟨?_, ?_, ?_, ?_⟩, ⟨?_, ?_⟩, ⟨?_, ?_, ?_⟩, by decide⟩
  · simp [updateCircuitBreaker, hc, hc4]
  · simp [updateCircuitBreaker, hc, hc4]
  · simp [updateCircuitBreaker, hc, hc4]
  · simp [updateCircuitBreaker, hc, hc4]
  · simp [updateCircuitBreaker, hh]
  · simp [updateCircuitBreaker, hh]
  · simp [updateCircuitBreaker, hho]
  · simp [updateCircuitBreaker, hho]
  · have hinv := cbInv_run es CircuitBreaker.init cbInv_init
    rw [← hreach] at hinv
    obtain ⟨h5, t, c, ho, hn, hc1, hc2⟩ := hinv (Or.inr hho)
    have hpow : (64 : Nat) ≤ 2 ^ (cb.failures + 1) := by
      calc (64 : Nat) = 2 ^ 6 := by norm_num
      _ ≤ 2 ^ (cb.failures + 1) := Nat.pow_le_pow_right (by norm_num) (by omega)
    have : (300000 : Nat) ≤ 60000 * 2 ^ (cb.failures + 1) := by
      calc (300000 : Nat) ≤ 60000 * 64 := by norm_num
      _ ≤ 60000 * 2 ^ (cb.failures + 1) := Nat.mul_le_mul_left _ hpow
    simp [ho, hn]
    omega

/-- Witness for `circuit_breaker_transitions`: a concrete reachable half-open
breaker, a closed breaker with 4 failures, and a half-open probe state. -/
theorem circuit_breaker_transitions_witness :
    (cbRun CircuitBreaker.init
        [(0, .failure), (0, .failure), (0, .failure), (0, .failure), (0, .failure),
         (60000, .success)]
      = cbRun CircuitBreaker.init
        [(0, .failure), (0, .failure), (0, .failure), (0, .failure), (0, .failure),
         (60000, .success)] ∧
      (cbRun CircuitBreaker.init
        [(0, .failure), (0, .failure), (0, .failure), (0, .failure), (0, .failure),
         (60000, .success)]).state = .halfOpen) ∧
    ((cbRun CircuitBreaker.init
        [(0, .failure), (0, .failure), (0, .failure), (0, .failure)]).state = .closed ∧
      (cbRun CircuitBreaker.init
        [(0, .failure), (0, .failure), (0, .failure), (0, .failure)]).failures = 4) ∧
    (updateCircuitBreaker 70000 .failure
        (cbRun CircuitBreaker.init
          [(0, .failure), (0, .failure), (0, .failure), (0, .failure), (0, .failure),
           (60000, .success)])).state = .opened := by
  refine ⟨⟨rfl, by decide⟩, ⟨by decide, by decide⟩, ?_⟩
  exact (circuit_breaker_transitions 70000
    (cbRun CircuitBreaker.init
      [(0, .failure), (0, .failure), (0, .failure), (0, .failure), (0, .failure),
       (60000, .success)])
    (cbRun CircuitBreaker.init
      [(0, .failure), (0, .failure), (0, .failure), (0, .failure)])
    (cbRun CircuitBreaker.init
      [(0, .failure), (0, .failure), (0, .failure), (0, .failure), (0, .failure),
       (60000, .success)])
    [(0, .failure), (0, .failure), (0, .failure), (0, .failure), (0, .failure),
     (60000, .success)]
    rfl (by decide) (by decide) (by decide) (by decide)).2.2.1.1

/-! ## Batch processor (src/shared/batch-processor.js, BatchProcessor)

An item processor is a function `ι → Except String α` (`Except.error msg`
models a throw with `error.message = msg`).  `processSingleBatch` wraps each
item in a try/catch inside `semaphore.use`, so a throwing processor yields the
structured record `{error:true, item, message, timestamp}` at that item's
position; `Promise.allSettled` plus the index-preserving `map` keep results
in input order, modelled as `List.map`.  `Date.now()` is passed in as `ts`. -/

inductive BatchResult (ι α : Type) where
  | ok (v : α)
  | errRec (item : ι) (message : String) (timestamp : Nat)
  deriving Repr, DecidableEq

/-- Outcome recorded for one item of a batch. -/
def itemOutcome (processor : ι → Except String α) (ts : Nat) (item : ι) :
    BatchResult ι α :=
  match processor item with
  | .ok v => .ok v
  | .error msg => .errRec item msg ts

/-- Fuel-indexed chunking; the fuel is the number of list elements still to
consume, so the recursion is structural and the function evaluates by
reduction. -/
def createBatchesAux (batchSize : Nat) : Nat → List ι → List (List ι)
  | _, [] => []
  | 0, _ :: _ => []
  | fuel + 1, x :: xs =>
      (x :: xs.take (batchSize - 1)) ::
        createBatchesAux batchSize fuel (xs.drop (batchSize - 1))

/-- `createBatches(items)`: slices of length `batchSize` taken left to right
(the last batch may be short).  For `batchSize ≥ 1` this equals the source's
`for (i = 0; i < items.length; i += batchSize) slice(i, i + batchSize)`
loop; the head-consuming formulation makes termination structural. -/
def createBatches (batchSize : Nat) (items : List ι) : List (List ι) :=
  createBatchesAux batchSize items.length items

/-- `processSingleBatch(batch, processor)`. -/
def processSingleBatch (processor : ι → Except String α) (ts : Nat)
    (batch : List ι) : List (BatchResult ι α) :=
  batch.map (itemOutcome processor ts)

/-- `processBatch(items, processor)`: partition into batches, process each
batch in order, concatenate the per-batch results. -/
def processBatch (batchSize : Nat) (processor : ι → Except String α) (ts : Nat)
    (items : List ι) : List (BatchResult ι α) :=
  ((createBatches batchSize items).map (processSingleBatch processor ts)).flatten

lemma createBatchesAux_flatten (batchSize : Nat) :
    ∀ (fuel : Nat) (items : List ι), items.length ≤ fuel →
      (createBatchesAux batchSize fuel items).flatten = items := by
  intro fuel
  induction fuel with
  | zero =>
    intro items h
    cases items with
    | nil => simp [createBatchesAux]
    | cons x xs => simp at h
  | succ fuel ih =>
    intro items h
    cases items with
    | nil => simp [createBatchesAux]
    | cons x xs =>
      have hd : (xs.drop (batchSize - 1)).length ≤ fuel := by
        have := List.length_drop (batchSize - 1) xs
        simp at h
        omega
      simp [createBatchesAux, ih _ hd]

lemma createBatches_flatten (batchSize : Nat) (items : List ι) :
    (createBatches batchSize items).flatten = items :=
  createBatchesAux_flatten batchSize items.length items le_rfl

lemma processBatch_eq_map (batchSize : Nat) (processor : ι → Except String α)
    (ts : Nat) (items : List ι) :
    processBatch batchSize processor ts items = items.map (itemOutcome processor ts) := by
  unfold processBatch processSingleBatch
  rw [← List.map_flatten, createBatches_flatten]

/-- C3.  `processBatch` returns exactly one entry per input item, in input
order: the result list is the pointwise image of the input; its length equals
the input length; an item whose processor throws yields the structured record
`{error:true, item, message, timestamp}` at that item's index while every
other index holds exactly what its own processor call produced; and the
7-items/batch-size-3 example yields exactly 7 entries in input order, with
the sole failing item's record at its own index. -/
theorem processBatch_one_entry_per_item (batchSize : Nat)
    (processor : ι → Except String α) (ts : Nat) (items : List ι)
    (_hbs : 1 ≤ batchSize) :
    processBatch batchSize processor ts items = items.map (itemOutcome processor ts) ∧
    (processBatch batchSize processor ts items).length = items.length ∧
    (∀ i : Nat, ∀ hi : i < items.length,
      (processBatch batchSize processor ts items)[i]?
        = some (match processor (items.get ⟨i, hi⟩) with
          | .ok v => .ok v
          | .error msg => .errRec (items.get ⟨i, hi⟩) msg ts)) ∧
    (processBatch 3
        (fun n : Nat => if n = 4 then .error "boom" else .ok (n * 10)) 7
        [0, 1, 2, 3, 4, 5, 6]
      = [.ok 0, .ok 10, .ok 20, .ok 30, .errRec 4 "boom" 7, .ok 50, .ok 60] ∧
      (processBatch 3
        (fun n : Nat => if n = 4 then .error "boom" else .ok (n * 10)) 7
        [0, 1, 2, 3, 4, 5, 6]).length = 7) := by
  refine ⟨processBatch_eq_map batchSize processor ts items, ?_, ?_, by decide, by decide⟩
  · rw [processBatch_eq_map]; simp
  · intro i hi
    rw [processBatch_eq_map]
    simp [List.getElem?_map, List.getElem?_eq_getElem, hi, itemOutcome]

/-- Witness for `processBatch_one_entry_per_item` at batch size 3 on a
concrete item list. -/
theorem processBatch_one_entry_per_item_witness :
    1 ≤ 3 ∧
    processBatch 3 (fun n : Nat => if n = 4 then .error "boom" else .ok (n * 10)) 7
        [0, 1, 2, 3, 4, 5, 6]
      = [0, 1, 2, 3, 4, 5, 6].map
          (itemOutcome (fun n : Nat => if n = 4 then .error "boom" else .ok (n * 10)) 7) :=
  ⟨by decide,
    (processBatch_one_entry_per_item 3
      (fun n : Nat => if n = 4 then .error "boom" else .ok (n * 10)) 7
      [0, 1, 2, 3, 4, 5, 6] (by decide)).1⟩

/-! `processWithRetry(items, processor, maxRetries)`: run `processBatch`,
collect the entries with `error:true`; if none, or if the retry budget is
exhausted, return this pass's results; otherwise re-submit only the failed
items.  The source's surrounding `try/catch` is dead in this model because
the embedded `processBatch` is total. -/

def BatchResult.isErr : BatchResult ι α → Bool
  | .errRec .. => true
  | .ok _ => false

/-- The `item` field of an error record (`errors.map(e => e.item)`). -/
def errItemOf : BatchResult ι α → Option ι
  | .errRec item _ _ => some item
  | .ok _ => none

def processWithRetryAux (batchSize : Nat) (processor : ι → Except String α)
    (ts : Nat) : Nat → List ι → List (BatchResult ι α)
  | 0, items => processBatch batchSize processor ts items
  | r + 1, items =>
    let results := processBatch batchSize processor ts items
    let errors := results.filter BatchResult.isErr
    if errors.isEmpty then results
    else processWithRetryAux batchSize processor ts r (errors.filterMap errItemOf)

def processWithRetry (batchSize : Nat) (processor : ι → Except String α)
    (ts : Nat) (maxRetries : Nat) (items : List ι) : List (BatchResult ι α) :=
  processWithRetryAux batchSize processor ts maxRetries items

/-- C9.  When a pass of `processBatch` leaves failed items and retries
remain, `processWithRetry` recurses on the failed items only, so the value
returned is the result array of the final pass alone: entries of items that
succeeded earlier are absent.  Concretely, with the default `maxRetries = 2`,
two items of which the second always fails yield a single-entry result —
shorter than the input and containing no entry for the succeeded item. -/
theorem processWithRetry_returns_final_pass (batchSize : Nat)
    (processor : ι → Except String α) (ts : Nat) (r : Nat) (items : List ι)
    (herr : ((processBatch batchSize processor ts items).filter BatchResult.isErr) ≠ []) :
    processWithRetryAux batchSize processor ts (r + 1) items
      = processWithRetryAux batchSize processor ts r
          (((processBatch batchSize processor ts items).filter
              BatchResult.isErr).filterMap errItemOf) ∧
    (processWithRetry 3 (fun n : Nat => if n = 1 then .error "boom" else .ok n) 7 2 [0, 1]
        = [.errRec 1 "boom" 7] ∧
      (processWithRetry 3 (fun n : Nat => if n = 1 then .error "boom" else .ok n) 7 2
          [0, 1]).length < [0, 1].length) := by
  refine ⟨?_, by decide, by decide⟩
  rw [processWithRetryAux]
  simp only [List.isEmpty_iff, herr, if_false]

/-- Witness for `processWithRetry_returns_final_pass` on a pass whose second
item fails. -/
theorem processWithRetry_returns_final_pass_witness :
    ((processBatch 3 (fun n : Nat => if n = 1 then .error "boom" else .ok n) 7
        [0, 1]).filter BatchResult.isErr) ≠ [] ∧
    processWithRetryAux 3 (fun n : Nat => if n = 1 then .error "boom" else .ok n) 7 2 [0, 1]
      = processWithRetryAux 3 (fun n : Nat => if n = 1 then .error "boom" else .ok n) 7 1
          (((processBatch 3 (fun n : Nat => if n = 1 then .error "boom" else .ok n) 7
              [0, 1]).filter BatchResult.isErr).filterMap errItemOf) :=
  ⟨by decide,
    (processWithRetry_returns_final_pass 3
      (fun n : Nat => if n = 1 then .error "boom" else .ok n) 7 1 [0, 1] (by decide)).1⟩

/-! ## Retry executor (src/shared/errors.js, `withRetry`)

A JS error is modelled by its fields relevant to `withRetry`:
`isApp` (is it an `instanceof AppError`), `isOperational`, `code`, `message`.
The operation is a function from the attempt number (1-based) to an outcome,
so both deterministic and attempt-dependent operations are expressible.
Delays are rationals because `backoffMultiplier` is fractional (1.5). -/

structure JsError where
  isApp : Bool
  isOperational : Bool
  code : Option String
  message : String
  deriving Repr, DecidableEq

/-- `ErrorHandler.isOperationalError`: `error instanceof AppError`
and `error.isOperational`; any other error is non-operational. -/
def isOperationalError (e : JsError) : Bool :=
  e.isApp && e.isOperational

/-- The wrapped `ProcessingError` message raised after the loop:
`Operation failed after ${maxRetries} attempts: ${lastError.message}`. -/
def retryFailMessage (maxRetries : Nat) (lastError : Option JsError) : String :=
  "Operation failed after " ++ toString maxRetries ++ " attempts: "
    ++ (match lastError with | some e => e.message | none => "undefined")

/-- Trace of one `withRetry` call: final outcome, the delays slept before
each retry (in order), and how many times the operation was invoked. -/
structure RetryTrace (α : Type) where
  result : Except String α
  delays : List ℚ
  invocations : Nat
  deriving Repr

/-- The `for (attempt = 1; attempt <= maxRetries; attempt++)` loop body,
structurally recursive in the number of remaining iterations.  On failure the
loop retries only when `attempt < maxRetries` and the error is operational or
has code ENOTFOUND/ECONNRESET, sleeping
`baseDelay * backoffMultiplier^(attempt-1)` first; otherwise it breaks and
the wrapped failure is raised. -/
def withRetryFrom (op : Nat → Except JsError α) (maxRetries : Nat)
    (baseDelay backoffMultiplier : ℚ) :
    Nat → Nat → Option JsError → RetryTrace α
  | _, 0, lastError => ⟨.error (retryFailMessage maxRetries lastError), [], 0⟩
  | attempt, remaining + 1, _ =>
    match op attempt with
    | .ok v => ⟨.ok v, [], 1⟩
    | .error e =>
      if attempt < maxRetries
          && (isOperationalError e || e.code == some "ENOTFOUND"
                || e.code == some "ECONNRESET") then
        let rest := withRetryFrom op maxRetries baseDelay backoffMultiplier
          (attempt + 1) remaining (some e)
        ⟨rest.result,
          baseDelay * backoffMultiplier ^ (attempt - 1) :: rest.delays,
          rest.invocations + 1⟩
      else ⟨.error (retryFailMessage maxRetries (some e)), [], 1⟩

/-- `withRetry(operation, maxRetries, baseDelay, backoffMultiplier)`. -/
def withRetry (op : Nat → Except JsError α) (maxRetries : Nat)
    (baseDelay backoffMultiplier : ℚ) : RetryTrace α :=
  withRetryFrom op maxRetries baseDelay backoffMultiplier 1 maxRetries none

lemma withRetryFrom_delays (op : Nat → Except JsError α) (maxRetries : Nat)
    (b m : ℚ) :
    ∀ (remaining attempt : Nat) (le : Option JsError), 1 ≤ attempt →
      (withRetryFrom op maxRetries b m attempt remaining le).delays
        = (List.range
            (withRetryFrom op maxRetries b m attempt remaining le).delays.length).map
            (fun i => b * m ^ (attempt - 1 + i)) := by
  intro remaining
  induction remaining with
  | zero => intro attempt le h1; simp [withRetryFrom]
  | succ remaining ih =>
    intro attempt le h1
    cases hop : op attempt with
    | ok v => simp [withRetryFrom, hop]
    | error e =>
      by_cases hr : attempt < maxRetries
          && (isOperationalError e || e.code == some "ENOTFOUND"
                || e.code == some "ECONNRESET")
      · have ihs := ih (attempt + 1) (some e) (by omega)
        simp only [withRetryFrom, hop, hr, if_true]
        simp only [List.length_cons, List.range_succ_eq_map, List.map_cons,
          List.cons.injEq]
        refine ⟨by simp, ?_⟩
        rw [ihs]
        simp only [List.length_map, List.length_range, List.map_map]
        refine List.map_congr_left ?_
        intro i _
        simp only [Function.comp]
        have he : attempt + 1 - 1 + i = attempt - 1 + Nat.succ i := by omega
        rw [he]
      · simp [withRetryFrom, hop, hr]

/-- C4.  `withRetry` sleeps `baseDelay * backoffMultiplier^(attempt-1)`
before each retry and nothing else (the i-th recorded delay, 0-based, is
`baseDelay * backoffMultiplier^i`, pure exponential with no jitter);
`withRetry(op, 3, 100, 2)` on an operation failing with a recoverable error
twice and then succeeding sleeps exactly [100 ms, 200 ms] and returns the
success value after 3 invocations; and an operation that always throws a
non-recoverable (non-operational, non-ENOTFOUND/ECONNRESET) error is invoked
exactly once before the wrapped failure is raised. -/
theorem withRetry_backoff (op : Nat → Except JsError α) (maxRetries : Nat)
    (b m : ℚ) :
    ((withRetry op maxRetries b m).delays
      = (List.range (withRetry op maxRetries b m).delays.length).map
          (fun i => b * m ^ i)) ∧
    (withRetry
        (fun attempt => if attempt ≤ 2
          then .error ⟨true, true, none, "blip"⟩
          else .ok (42 : Nat))
        3 100 2
      = ⟨.ok 42, [100, 200], 3⟩) ∧
    (withRetry (fun _ => (.error ⟨false, false, none, "fatal"⟩ : Except JsError Nat))
        3 100 2
      = ⟨.error "Operation failed after 3 attempts: fatal", [], 1⟩) := by
  refine ⟨?_, by norm_num [withRetry, withRetryFrom, isOperationalError, retryFailMessage],
    by norm_num [withRetry, withRetryFrom, isOperationalError, retryFailMessage]; decide⟩
  have h := withRetryFrom_delays op maxRetries b m maxRetries 1 none le_rfl
  simpa [withRetry] using h

/-! ## LRU cache (src/shared/cache-manager.js, `LRUCache`)

A JS `Map` is an insertion-ordered association list with unique keys:
`set` on a present key updates the value in place (order kept), otherwise
appends; `delete` removes the entry; iteration follows that order.  The
cached payload is `Option V`, where `none` models the JS `null` (`get`
returns `entry.data` directly, so a stored `null` is returned as the same
sentinel that signals absence).  `Date.now()` is an explicit `now`
parameter.  The `_hits`/`_misses` fields start `undefined` and are bumped
with `(x || 0) + 1`; both `undefined` and `0` are falsy, so `Nat` starting
at `0` models them exactly. -/

def mapFind (k : String) : List (String × β) → Option β
  | [] => none
  | (k', v) :: rest => if k' = k then some v else mapFind k rest

def mapSet (k : String) (v : β) : List (String × β) → List (String × β)
  | [] => [(k, v)]
  | (k', v') :: rest =>
    if k' = k then (k, v) :: rest else (k', v') :: mapSet k v rest

def mapDelete (k : String) : List (String × β) → List (String × β)
  | [] => []
  | (k', v') :: rest => if k' = k then rest else (k', v') :: mapDelete k rest

structure CacheEntry (V : Type) where
  data : Option V
  timestamp : Nat
  deriving Repr, DecidableEq

structure LRUCache (V : Type) where
  maxSize : Nat
  ttlMs : Nat
  cache : List (String × CacheEntry V)
  accessTime : List (String × Nat)
  hits : Nat
  misses : Nat
  deriving Repr

def LRUCache.init (maxSize ttlMs : Nat) : LRUCache V :=
  { maxSize := maxSize, ttlMs := ttlMs, cache := [], accessTime := [],
    hits := 0, misses := 0 }

/-- `_generateKey(provider, operation, ...params)`; `params` stands for the
already-serialized `JSON.stringify(params)` string. -/
def generateKey (provider operation params : String) : String :=
  provider ++ ":" ++ operation ++ ":" ++ params

/-- The scan in `_evictOldest`: iterate `accessTime` keeping the first entry
with a strictly smaller time than the best so far (`oldestTime` starts at
`Infinity`, modelled by `none`). -/
def findOldestAux : Option (String × Nat) → List (String × Nat) → Option (String × Nat)
  | best, [] => best
  | best, (k, t) :: rest =>
    findOldestAux
      (match best with
        | none => some (k, t)
        | some (bk, bt) => if t < bt then some (k, t) else some (bk, bt)) rest

/-- `_evictOldest()`: nothing to do below `maxSize`; otherwise delete the
oldest-by-last-access key from both maps (if the scan found one). -/
def LRUCache.evictOldest (c : LRUCache V) : LRUCache V :=
  if c.cache.length < c.maxSize then c
  else
    match findOldestAux none c.accessTime with
    | none => c
    | some (k, _) =>
      { c with cache := mapDelete k c.cache, accessTime := mapDelete k c.accessTime }

/-- `set(key, data)` at time `now`: evict first, then store the entry and its
access time. -/
def LRUCache.set (c : LRUCache V) (now : Nat) (key : String) (data : Option V) :
    LRUCache V :=
  let c1 := c.evictOldest
  { c1 with
    cache := mapSet key ⟨data, now⟩ c1.cache
    accessTime := mapSet key now c1.accessTime }

/-- `get(key)` at time `now`: miss on absence; lazy-expire (delete and miss)
when `now - timestamp > ttlMs`; otherwise refresh the access time and return
`entry.data` (which is the same `null` sentinel when `null` was stored). -/
def LRUCache.get (c : LRUCache V) (now : Nat) (key : String) :
    LRUCache V × Option V :=
  match mapFind key c.cache with
  | none => (c, none)
  | some entry =>
    if now - entry.timestamp > c.ttlMs then
      ({ c with
          cache := mapDelete key c.cache
          accessTime := mapDelete key c.accessTime }, none)
    else
      ({ c with accessTime := mapSet key now c.accessTime }, entry.data)

/-- `getWithStats(key)`: `get`, then record a hit iff the result is not the
`null` sentinel. -/
def LRUCache.getWithStats (c : LRUCache V) (now : Nat) (key : String) :
    LRUCache V × Option V :=
  let (c1, result) := c.get now key
  match result with
  | some v => ({ c1 with hits := c1.hits + 1 }, some v)
  | none => ({ c1 with misses := c1.misses + 1 }, none)

/-- `_calculateHitRate()`: `this._hits && this._misses` is JS truthiness, so
the quotient is only computed when both counters are non-zero. -/
def calculateHitRate (c : LRUCache V) : ℚ :=
  if c.hits ≠ 0 ∧ c.misses ≠ 0 then
    ((c.hits : ℚ) / ((c.hits : ℚ) + (c.misses : ℚ))) * 100
  else 0

section MapLemmas

variable {β : Type}

lemma mapFind_mapSet_self (k : String) (v : β) (m : List (String × β)) :
    mapFind k (mapSet k v m) = some v := by
  induction m with
  | nil => simp [mapFind, mapSet]
  | cons p rest ih =>
    obtain ⟨k', v'⟩ := p
    by_cases h : k' = k
    · simp [mapFind, mapSet, h]
    · simp [mapFind, mapSet, h, ih]

lemma mapFind_mapSet_ne (k k' : String) (v : β) (m : List (String × β))
    (h : k' ≠ k) : mapFind k' (mapSet k v m) = mapFind k' m := by
  have h' : k ≠ k' := Ne.symm h
  induction m with
  | nil => simp [mapFind, mapSet, h']
  | cons p rest ih =>
    obtain ⟨k0, v0⟩ := p
    by_cases h0 : k0 = k
    · subst h0
      simp [mapFind, mapSet, h']
    · simp [mapFind, mapSet, h0, ih]

lemma mapFind_mapDelete_ne (k k' : String) (m : List (String × β))
    (h : k' ≠ k) : mapFind k' (mapDelete k m) = mapFind k' m := by
  have h' : k ≠ k' := Ne.symm h
  induction m with
  | nil => simp [mapFind, mapDelete]
  | cons p rest ih =>
    obtain ⟨k0, v0⟩ := p
    by_cases h0 : k0 = k
    · subst h0
      simp [mapFind, mapDelete, h']
    · simp [mapFind, mapDelete, h0, ih]

lemma mapSet_keys (k : String) (v : β) (m : List (String × β)) :
    (mapSet k v m).map Prod.fst
      = if k ∈ m.map Prod.fst then m.map Prod.fst else m.map Prod.fst ++ [k] := by
  induction m with
  | nil => simp [mapSet]
  | cons p rest ih =>
    obtain ⟨k0, v0⟩ := p
    by_cases h0 : k0 = k
    · simp [mapSet, h0]
    · by_cases hm : k ∈ rest.map Prod.fst
      · simp [mapSet, h0, hm, ih, Ne.symm h0]
      · simp [mapSet, h0, hm, ih, Ne.symm h0]

lemma mapDelete_keys (k : String) (m : List (String × β)) :
    (mapDelete k m).map Prod.fst = (m.map Prod.fst).erase k := by
  induction m with
  | nil => simp [mapDelete]
  | cons p rest ih =>
    obtain ⟨k0, v0⟩ := p
    by_cases h0 : k0 = k
    · subst h0
      simp [mapDelete, List.erase_cons_head]
    · simp [mapDelete, h0, List.erase_cons_tail, ih]

lemma mapSet_length (k : String) (v : β) (m : List (String × β)) :
    (mapSet k v m).length
      = if k ∈ m.map Prod.fst then m.length else m.length + 1 := by
  have h := congrArg List.length (mapSet_keys k v m)
  simp only [List.length_map] at h
  by_cases hm : k ∈ m.map Prod.fst <;> simp [hm] at h <;> simpa [hm] using h

lemma mapDelete_length_mem (k : String) (m : List (String × β))
    (h : k ∈ m.map Prod.fst) : (mapDelete k m).length = m.length - 1 := by
  have hk := congrArg List.length (mapDelete_keys k m)
  simp only [List.length_map] at hk
  rw [hk, List.length_erase_of_mem h, List.length_map]

lemma mapSet_keys_nodup (k : String) (v : β) (m : List (String × β))
    (h : (m.map Prod.fst).Nodup) : ((mapSet k v m).map Prod.fst).Nodup := by
  rw [mapSet_keys]
  by_cases hm : k ∈ m.map Prod.fst
  · simpa [hm] using h
  · simp only [hm, if_false]
    refine h.append (List.nodup_singleton k) ?_
    intro a ha hak
    simp only [List.mem_singleton] at hak
    exact hm (hak ▸ ha)

lemma mapDelete_keys_nodup (k : String) (m : List (String × β))
    (h : (m.map Prod.fst).Nodup) : ((mapDelete k m).map Prod.fst).Nodup := by
  rw [mapDelete_keys]
  exact h.erase k

end MapLemmas

lemma mapFind_some_mem_keys {β : Type} (k : String) (v : β)
    (m : List (String × β)) (h : mapFind k m = some v) : k ∈ m.map Prod.fst := by
  induction m with
  | nil => simp [mapFind] at h
  | cons p rest ih =>
    obtain ⟨k0, v0⟩ := p
    by_cases h0 : k0 = k
    · simp [h0]
    · simp only [mapFind, h0, if_false] at h
      simp [ih h]

lemma findOldestAux_isSome (l : List (String × Nat)) :
    ∀ best : String × Nat, ∃ r, findOldestAux (some best) l = some r := by
  induction l with
  | nil => intro best; exact ⟨best, rfl⟩
  | cons p rest ih =>
    intro best
    obtain ⟨k, t⟩ := p
    by_cases h : t < best.2
    · simpa [findOldestAux, h] using ih (k, t)
    · simpa [findOldestAux, h] using ih best

lemma findOldestAux_mem (l : List (String × Nat)) :
    ∀ (best : Option (String × Nat)) (r : String × Nat),
      findOldestAux best l = some r → r ∈ l ∨ best = some r := by
  induction l with
  | nil => intro best r h; right; simpa [findOldestAux] using h
  | cons p rest ih =>
    intro best r h
    obtain ⟨k, t⟩ := p
    cases best with
    | none =>
      simp only [findOldestAux] at h
      rcases ih (some (k, t)) r h with hm | he
      · exact Or.inl (List.mem_cons_of_mem _ hm)
      · left
        simp only [Option.some.injEq] at he
        simp [← he]
    | some b =>
      obtain ⟨bk, bt⟩ := b
      by_cases hlt : t < bt
      · simp only [findOldestAux, hlt, if_true] at h
        rcases ih (some (k, t)) r h with hm | he
        · exact Or.inl (List.mem_cons_of_mem _ hm)
        · left
          simp only [Option.some.injEq] at he
          simp [← he]
      · simp only [findOldestAux, hlt, if_false] at h
        rcases ih (some (bk, bt)) r h with hm | he
        · exact Or.inl (List.mem_cons_of_mem _ hm)
        · right; simpa using he

lemma findOldestAux_min (l : List (String × Nat)) :
    ∀ (best : Option (String × Nat)) (r : String × Nat),
      findOldestAux best l = some r →
        (∀ p ∈ l, r.2 ≤ p.2) ∧ (∀ q, best = some q → r.2 ≤ q.2) := by
  induction l with
  | nil =>
    intro best r h
    simp only [findOldestAux] at h
    exact ⟨by simp, fun q hq => by simp [h] at hq; simp [hq]⟩
  | cons p rest ih =>
    intro best r h
    obtain ⟨k, t⟩ := p
    cases best with
    | none =>
      simp only [findOldestAux] at h
      obtain ⟨h1, h2⟩ := ih (some (k, t)) r h
      have hrt : r.2 ≤ t := h2 (k, t) rfl
      exact ⟨by simpa [hrt] using h1, by simp⟩
    | some b =>
      obtain ⟨bk, bt⟩ := b
      by_cases hlt : t < bt
      · simp only [findOldestAux, hlt, if_true] at h
        obtain ⟨h1, h2⟩ := ih (some (k, t)) r h
        have hrt : r.2 ≤ t := h2 (k, t) rfl
        refine ⟨by simpa [hrt] using h1, ?_⟩
        intro q hq
        simp only [Option.some.injEq] at hq
        subst hq
        simp only []
        omega
      · simp only [findOldestAux, hlt, if_false] at h
        obtain ⟨h1, h2⟩ := ih (some (bk, bt)) r h
        have hrb : r.2 ≤ bt := h2 (bk, bt) rfl
        have hrt : r.2 ≤ t := by omega
        constructor
        · intro p hp
          rcases List.mem_cons.mp hp with rfl | hp'
          · simpa using hrt
          · exact h1 p hp'
        · intro q hq
          simp only [Option.some.injEq] at hq
          subst hq
          simpa using hrb

/-- Well-formedness of a cache state: both `Map`s hold the same keys in the
same insertion order, without duplicates. -/
def LRUCache.wf (c : LRUCache V) : Prop :=
  c.cache.map Prod.fst = c.accessTime.map Prod.fst ∧ (c.cache.map Prod.fst).Nodup

/-- At capacity (with at least one entry), `_evictOldest` deletes exactly the
key whose last-access time is minimal, from both maps. -/
lemma evictOldest_at_capacity (c : LRUCache V) (hwf : c.wf)
    (hlen : c.maxSize ≤ c.cache.length) (hms : 1 ≤ c.maxSize) :
    ∃ k tk, (k, tk) ∈ c.accessTime ∧ (∀ p ∈ c.accessTime, tk ≤ p.2) ∧
      c.evictOldest
        = { c with
            cache := mapDelete k c.cache
            accessTime := mapDelete k c.accessTime } := by
  have hne : c.accessTime ≠ [] := by
    intro hnil
    have := congrArg List.length hwf.1
    simp only [List.length_map] at this
    rw [hnil] at this
    simp only [List.length_nil] at this
    omega
  obtain ⟨q, rest, hql⟩ := List.exists_cons_of_ne_nil hne
  have hq : findOldestAux none c.accessTime = findOldestAux (some q) rest := by
    rw [hql]; obtain ⟨qk, qt⟩ := q; simp [findOldestAux]
  obtain ⟨r, hr⟩ := findOldestAux_isSome rest q
  have hfind : findOldestAux none c.accessTime = some r := by rw [hq, hr]
  have hmem : r ∈ c.accessTime := by
    rcases findOldestAux_mem c.accessTime none r hfind with hm | he
    · exact hm
    · simp at he
  have hmin := (findOldestAux_min c.accessTime none r hfind).1
  refine ⟨r.1, r.2, by simpa using hmem, hmin, ?_⟩
  have hnlt : ¬ c.cache.length < c.maxSize := by omega
  unfold LRUCache.evictOldest
  rw [if_neg hnlt, hfind]

lemma wf_evictOldest (c : LRUCache V) (hwf : c.wf) : c.evictOldest.wf := by
  unfold LRUCache.evictOldest
  split
  · exact hwf
  · cases hfind : findOldestAux none c.accessTime with
    | none => exact hwf
    | some r =>
      obtain ⟨k, tk⟩ := r
      refine ⟨?_, mapDelete_keys_nodup k _ hwf.2⟩
      rw [mapDelete_keys, mapDelete_keys, hwf.1]

lemma evictOldest_length_le (c : LRUCache V) :
    c.evictOldest.cache.length ≤ c.cache.length := by
  unfold LRUCache.evictOldest
  split
  · exact le_rfl
  · cases hfind : findOldestAux none c.accessTime with
    | none => exact le_rfl
    | some r =>
      obtain ⟨k, tk⟩ := r
      have := congrArg List.length (mapDelete_keys k c.cache)
      simp only [List.length_map] at this
      rw [this]
      exact le_trans (List.length_erase_le _ _) (by simp)

lemma wf_set (c : LRUCache V) (now : Nat) (key : String) (data : Option V)
    (hwf : c.wf) : (c.set now key data).wf := by
  have h1 := wf_evictOldest c hwf
  unfold LRUCache.set
  constructor
  · rw [mapSet_keys, mapSet_keys, h1.1]
  · exact mapSet_keys_nodup key _ _ h1.2

lemma wf_get (c : LRUCache V) (now : Nat) (key : String) (hwf : c.wf) :
    (c.get now key).1.wf := by
  cases hfind : mapFind key c.cache with
  | none => simpa only [LRUCache.get, hfind] using hwf
  | some entry =>
    by_cases hexp : now - entry.timestamp > c.ttlMs
    · simp only [LRUCache.get, hfind, hexp, if_true]
      exact ⟨by simp only [] ; rw [mapDelete_keys, mapDelete_keys, hwf.1],
        mapDelete_keys_nodup key _ hwf.2⟩
    · simp only [LRUCache.get, hfind, hexp, if_false]
      refine ⟨?_, hwf.2⟩
      have hk : key ∈ c.accessTime.map Prod.fst := by
        rw [← hwf.1]; exact mapFind_some_mem_keys key entry c.cache hfind
      simp only []
      rw [mapSet_keys, if_pos hk, hwf.1]

lemma get_length_le (c : LRUCache V) (now : Nat) (key : String) :
    (c.get now key).1.cache.length ≤ c.cache.length := by
  cases hfind : mapFind key c.cache with
  | none => simp [LRUCache.get, hfind]
  | some entry =>
    by_cases hexp : now - entry.timestamp > c.ttlMs
    · simp only [LRUCache.get, hfind, hexp, if_true]
      have := congrArg List.length (mapDelete_keys key c.cache)
      simp only [List.length_map] at this
      simp only [this]
      exact le_trans (List.length_erase_le _ _) (by simp)
    · simp [LRUCache.get, hfind, hexp]

lemma set_length_le (c : LRUCache V) (now : Nat) (key : String) (data : Option V)
    (hwf : c.wf) (hlen : c.cache.length ≤ c.maxSize) (hms : 1 ≤ c.maxSize) :
    (c.set now key data).cache.length ≤ c.maxSize := by
  by_cases hlt : c.cache.length < c.maxSize
  · have hev : c.evictOldest = c := by unfold LRUCache.evictOldest; rw [if_pos hlt]
    unfold LRUCache.set
    rw [hev, mapSet_length]
    split <;> omega
  · have hcap : c.maxSize ≤ c.cache.length := by omega
    obtain ⟨k, tk, hmem, _, hev⟩ := evictOldest_at_capacity c hwf hcap hms
    have hk : k ∈ c.cache.map Prod.fst := by
      rw [hwf.1]
      exact List.mem_map_of_mem Prod.fst hmem
    have hdel : (mapDelete k c.cache).length = c.cache.length - 1 :=
      mapDelete_length_mem k c.cache hk
    unfold LRUCache.set
    rw [hev, mapSet_length]
    simp only [hdel]
    split <;> omega

/-- Cache operations driven by a client: `set`, plain `get`, or the
statistics-tracking `getWithStats`. -/
inductive CacheOp (V : Type) where
  | opSet (now : Nat) (key : String) (data : Option V)
  | opGet (now : Nat) (key : String)
  | opGetS (now : Nat) (key : String)

def cacheRun (c : LRUCache V) : List (CacheOp V) → LRUCache V
  | [] => c
  | .opSet now k d :: ops => cacheRun (c.set now k d) ops
  | .opGet now k :: ops => cacheRun ((c.get now k).1) ops
  | .opGetS now k :: ops => cacheRun ((c.getWithStats now k).1) ops

lemma getWithStats_cache_eq (c : LRUCache V) (now : Nat) (key : String) :
    (c.getWithStats now key).1.cache = (c.get now key).1.cache ∧
      (c.getWithStats now key).1.accessTime = (c.get now key).1.accessTime ∧
      (c.getWithStats now key).1.maxSize = (c.get now key).1.maxSize := by
  rcases hg : c.get now key with ⟨c1, r⟩
  unfold LRUCache.getWithStats
  rw [hg]
  cases r <;> simp

lemma get_maxSize_eq (c : LRUCache V) (now : Nat) (key : String) :
    (c.get now key).1.maxSize = c.maxSize := by
  cases hfind : mapFind key c.cache with
  | none => simp [LRUCache.get, hfind]
  | some entry =>
    by_cases hexp : now - entry.timestamp > c.ttlMs <;>
      simp [LRUCache.get, hfind, hexp]

lemma set_maxSize_eq (c : LRUCache V) (now : Nat) (key : String) (data : Option V) :
    (c.set now key data).maxSize = c.maxSize := by
  unfold LRUCache.set LRUCache.evictOldest
  split
  · rfl
  · cases hfind : findOldestAux none c.accessTime with
    | none => rfl
    | some r => obtain ⟨k, tk⟩ := r; rfl

lemma cacheRun_wf_length (ops : List (CacheOp V)) :
    ∀ c : LRUCache V, c.wf → c.cache.length ≤ c.maxSize → 1 ≤ c.maxSize →
      (cacheRun c ops).wf ∧ (cacheRun c ops).cache.length ≤ (cacheRun c ops).maxSize ∧
        (cacheRun c ops).maxSize = c.maxSize := by
  induction ops with
  | nil => intro c hwf hlen hms; exact ⟨hwf, hlen, rfl⟩
  | cons op ops ih =>
    intro c hwf hlen hms
    cases op with
    | opSet now k d =>
      simp only [cacheRun]
      have hms' := set_maxSize_eq c now k d
      obtain ⟨w, l, m⟩ := ih (c.set now k d) (wf_set c now k d hwf)
        (by rw [hms']; exact set_length_le c now k d hwf hlen hms)
        (by omega)
      exact ⟨w, l, by rw [m, hms']⟩
    | opGet now k =>
      simp only [cacheRun]
      have hms' := get_maxSize_eq c now k
      obtain ⟨w, l, m⟩ := ih ((c.get now k).1) (wf_get c now k hwf)
        (by rw [hms']; exact le_trans (get_length_le c now k) hlen)
        (by omega)
      exact ⟨w, l, by rw [m, hms']⟩
    | opGetS now k =>
      simp only [cacheRun]
      obtain ⟨hc, ha, hm⟩ := getWithStats_cache_eq c now k
      have hwf' : (c.getWithStats now k).1.wf := by
        unfold LRUCache.wf
        rw [hc, ha]
        exact wf_get c now k hwf
      have hms' : (c.getWithStats now k).1.maxSize = c.maxSize := by
        rw [hm]; exact get_maxSize_eq c now k
      obtain ⟨w, l, m⟩ := ih ((c.getWithStats now k).1) hwf'
        (by rw [hms', hc]; exact le_trans (get_length_le c now k) hlen)
        (by omega)
      exact ⟨w, l, by rw [m, hms']⟩

lemma set_counters_eq (c : LRUCache V) (now : Nat) (key : String)
    (data : Option V) :
    (c.set now key data).hits = c.hits ∧ (c.set now key data).misses = c.misses := by
  unfold LRUCache.set LRUCache.evictOldest
  split
  · exact ⟨rfl, rfl⟩
  · cases hfind : findOldestAux none c.accessTime with
    | none => exact ⟨rfl, rfl⟩
    | some r => obtain ⟨k, tk⟩ := r; exact ⟨rfl, rfl⟩

lemma get_counters_eq (c : LRUCache V) (now : Nat) (key : String) :
    (c.get now key).1.hits = c.hits ∧ (c.get now key).1.misses = c.misses := by
  cases hfind : mapFind key c.cache with
  | none => simp [LRUCache.get, hfind]
  | some entry =>
    by_cases hexp : now - entry.timestamp > c.ttlMs <;>
      simp [LRUCache.get, hfind, hexp]

lemma getWithStats_counters (c : LRUCache V) (now : Nat) (key : String) :
    (c.getWithStats now key).1.hits + (c.getWithStats now key).1.misses
      = c.hits + c.misses + 1 := by
  rcases hg : c.get now key with ⟨c1, r⟩
  have hh : c1.hits = c.hits := by
    have := (get_counters_eq c now key).1; rw [hg] at this; exact this
  have hm : c1.misses = c.misses := by
    have := (get_counters_eq c now key).2; rw [hg] at this; exact this
  unfold LRUCache.getWithStats
  rw [hg]
  cases r <;> simp [hh, hm] <;> omega

/-- `true` exactly for the statistics-tracking reads (`getWithStats`). -/
def CacheOp.isTrackedRead : CacheOp V → Bool
  | .opGetS _ _ => true
  | _ => false

lemma cacheRun_counters (ops : List (CacheOp V)) :
    ∀ c : LRUCache V, (cacheRun c ops).hits + (cacheRun c ops).misses
      = c.hits + c.misses + ops.countP CacheOp.isTrackedRead := by
  induction ops with
  | nil => intro c; simp [cacheRun]
  | cons op ops ih =>
    intro c
    cases op with
    | opSet now k d =>
      simp only [cacheRun]
      rw [ih]
      obtain ⟨h1, h2⟩ := set_counters_eq c now k d
      rw [h1, h2, List.countP_cons]
      simp [CacheOp.isTrackedRead]
    | opGet now k =>
      simp only [cacheRun]
      rw [ih]
      obtain ⟨h1, h2⟩ := get_counters_eq c now k
      rw [h1, h2, List.countP_cons]
      simp [CacheOp.isTrackedRead]
    | opGetS now k =>
      simp only [cacheRun]
      rw [ih, getWithStats_counters, List.countP_cons]
      simp [CacheOp.isTrackedRead]
      omega

/-- C7.  For a well-formed cache at capacity (`maxSize ≥ 1`, as for every
namespace cache), a `set` evicts exactly one entry — one whose last-access
time is minimal among all entries — from both maps before the insert, leaves
every other key's stored value untouched, and keeps the entry count at most
`maxSize`; consequently, starting from a fresh namespace cache, the number
of stored entries never exceeds `maxSize` after any sequence of set/get
operations. -/
theorem lru_evicts_exactly_one (c : LRUCache V) (now : Nat) (key : String)
    (data : Option V) (maxSize ttlMs : Nat) (ops : List (CacheOp V))
    (hwf : c.wf) (hfull : c.cache.length = c.maxSize) (hms : 1 ≤ c.maxSize)
    (hms2 : 1 ≤ maxSize) :
    (∃ k tk, (k, tk) ∈ c.accessTime ∧ (∀ p ∈ c.accessTime, tk ≤ p.2) ∧
      c.evictOldest.cache = mapDelete k c.cache ∧
      c.evictOldest.accessTime = mapDelete k c.accessTime ∧
      c.evictOldest.cache.length = c.maxSize - 1 ∧
      (∀ k', k' ≠ k → mapFind k' c.evictOldest.cache = mapFind k' c.cache) ∧
      (c.set now key data).cache.length ≤ c.maxSize) ∧
    (cacheRun (LRUCache.init maxSize ttlMs) ops).cache.length ≤ maxSize := by
  constructor
  · obtain ⟨k, tk, hmem, hmin, hev⟩ :=
      evictOldest_at_capacity c hwf (le_of_eq hfull.symm) hms
    have hk : k ∈ c.cache.map Prod.fst := by
      rw [hwf.1]
      exact List.mem_map_of_mem Prod.fst hmem
    have hcache : c.evictOldest.cache = mapDelete k c.cache := by rw [hev]
    have haccess : c.evictOldest.accessTime = mapDelete k c.accessTime := by rw [hev]
    refine ⟨k, tk, hmem, hmin, hcache, haccess, ?_, ?_, ?_⟩
    · rw [hcache, mapDelete_length_mem k c.cache hk, hfull]
    · intro k' hk'
      rw [hcache]
      exact mapFind_mapDelete_ne k k' c.cache hk'
    · exact set_length_le c now key data hwf (le_of_eq hfull) hms
  · have h := cacheRun_wf_length ops (LRUCache.init maxSize ttlMs)
      ⟨rfl, List.nodup_nil⟩ (by simp [LRUCache.init]) (by simpa [LRUCache.init] using hms2)
    have h21 := h.2.1
    rw [h.2.2] at h21
    simpa [LRUCache.init] using h21

/-- Witness for `lru_evicts_exactly_one`: a full 2-entry cache of capacity 2
and a concrete op sequence. -/
theorem lru_evicts_exactly_one_witness :
    (let c : LRUCache Nat :=
      { maxSize := 2, ttlMs := 1000
        cache := [("a", ⟨some 1, 0⟩), ("b", ⟨some 2, 0⟩)]
        accessTime := [("a", 5), ("b", 3)]
        hits := 0, misses := 0 };
    c.wf ∧ c.cache.length = c.maxSize ∧ 1 ≤ c.maxSize ∧ 1 ≤ 2 ∧
      (cacheRun (LRUCache.init 2 1000)
        [CacheOp.opSet 0 "x" (some 7), CacheOp.opSet 1 "y" (some 8),
         CacheOp.opSet 2 "z" (some 9), CacheOp.opGet 3 "z"]).cache.length ≤ 2) := by
  refine ⟨⟨by decide, by decide⟩, by decide, by decide, by decide, ?_⟩
  exact (lru_evicts_exactly_one
    { maxSize := 2, ttlMs := 1000
      cache := [("a", ⟨some 1, 0⟩), ("b", ⟨some 2, 0⟩)]
      accessTime := [("a", 5), ("b", 3)]
      hits := 0, misses := 0 }
    0 "x" (some 7) 2 1000
    [CacheOp.opSet 0 "x" (some 7), CacheOp.opSet 1 "y" (some 8),
     CacheOp.opSet 2 "z" (some 9), CacheOp.opGet 3 "z"]
    ⟨by decide, by decide⟩ (by decide) (by decide) (by decide)).2

/-- C8, as written, is false: `_calculateHitRate` guards the quotient with
JS truthiness `this._hits && this._misses`, so a history of 1 hit and 0
misses (h + m = 1 > 0) reports a 0 hit rate where `h/(h+m)` as a percentage
is 100. -/
theorem hit_rate_zero_misses_counterexample :
    (cacheRun (LRUCache.init 10 1000)
      [CacheOp.opSet 0 (generateKey "p" "translate" "[]") ((some 5 : Option Nat)),
       CacheOp.opGetS 1 (generateKey "p" "translate" "[]")]).hits = 1 ∧
    (cacheRun (LRUCache.init 10 1000)
      [CacheOp.opSet 0 (generateKey "p" "translate" "[]") ((some 5 : Option Nat)),
       CacheOp.opGetS 1 (generateKey "p" "translate" "[]")]).misses = 0 ∧
    calculateHitRate (cacheRun (LRUCache.init 10 1000)
      [CacheOp.opSet 0 (generateKey "p" "translate" "[]") ((some 5 : Option Nat)),
       CacheOp.opGetS 1 (generateKey "p" "translate" "[]")]) = 0 ∧
    calculateHitRate (cacheRun (LRUCache.init 10 1000)
      [CacheOp.opSet 0 (generateKey "p" "translate" "[]") ((some 5 : Option Nat)),
       CacheOp.opGetS 1 (generateKey "p" "translate" "[]")])
      ≠ (((cacheRun (LRUCache.init 10 1000)
          [CacheOp.opSet 0 (generateKey "p" "translate" "[]") ((some 5 : Option Nat)),
           CacheOp.opGetS 1 (generateKey "p" "translate" "[]")]).hits : ℚ)
        / (((cacheRun (LRUCache.init 10 1000)
          [CacheOp.opSet 0 (generateKey "p" "translate" "[]") ((some 5 : Option Nat)),
           CacheOp.opGetS 1 (generateKey "p" "translate" "[]")]).hits : ℚ)
          + ((cacheRun (LRUCache.init 10 1000)
          [CacheOp.opSet 0 (generateKey "p" "translate" "[]") ((some 5 : Option Nat)),
           CacheOp.opGetS 1 (generateKey "p" "translate" "[]")]).misses : ℚ))) * 100 := by
  have hh : (cacheRun (LRUCache.init 10 1000)
      [CacheOp.opSet 0 (generateKey "p" "translate" "[]") ((some 5 : Option Nat)),
       CacheOp.opGetS 1 (generateKey "p" "translate" "[]")]).hits = 1 := by decide
  have hm : (cacheRun (LRUCache.init 10 1000)
      [CacheOp.opSet 0 (generateKey "p" "translate" "[]") ((some 5 : Option Nat)),
       CacheOp.opGetS 1 (generateKey "p" "translate" "[]")]).misses = 0 := by decide
  refine ⟨hh, hm, ?_, ?_⟩
  · unfold calculateHitRate
    rw [hh, hm]
    norm_num
  · unfold calculateHitRate
    rw [hh, hm]
    norm_num

/-- C8 amended: hit/miss counters count exactly the tracked reads
(`getWithStats` calls), and the reported hit rate equals
`hits/(hits+misses) · 100` whenever both counters are non-zero; when either
counter is zero the truthiness guard reports 0 instead.  A run with one hit
and one miss reports 50. -/
theorem lru_hit_rate (maxSize ttlMs : Nat) (ops : List (CacheOp V))
    (c : LRUCache V) (hh : c.hits ≠ 0) (hm : c.misses ≠ 0) :
    ((cacheRun (LRUCache.init maxSize ttlMs) ops).hits
        + (cacheRun (LRUCache.init maxSize ttlMs) ops).misses
      = ops.countP CacheOp.isTrackedRead) ∧
    calculateHitRate c = ((c.hits : ℚ) / ((c.hits : ℚ) + (c.misses : ℚ))) * 100 ∧
    calculateHitRate (cacheRun (LRUCache.init 10 1000)
      ([CacheOp.opSet 0 "k" (some 1), CacheOp.opGetS 1 "k",
        CacheOp.opGetS 2000000 "k"] : List (CacheOp Nat))) = 50 := by
  refine ⟨?_, ?_, ?_⟩
  · rw [cacheRun_counters]
    simp [LRUCache.init]
  · unfold calculateHitRate
    rw [if_pos ⟨hh, hm⟩]
  · have hh1 : (cacheRun (LRUCache.init 10 1000)
        ([CacheOp.opSet 0 "k" (some 1), CacheOp.opGetS 1 "k",
          CacheOp.opGetS 2000000 "k"] : List (CacheOp Nat))).hits = 1 := by decide
    have hm1 : (cacheRun (LRUCache.init 10 1000)
        ([CacheOp.opSet 0 "k" (some 1), CacheOp.opGetS 1 "k",
          CacheOp.opGetS 2000000 "k"] : List (CacheOp Nat))).misses = 1 := by decide
    unfold calculateHitRate
    rw [hh1, hm1]
    norm_num

/-- Witness for `lru_hit_rate` at a cache with one hit and one miss. -/
theorem lru_hit_rate_witness :
    (let c : LRUCache Nat :=
      { maxSize := 10, ttlMs := 1000, cache := [], accessTime := []
        hits := 1, misses := 1 };
    c.hits ≠ 0 ∧ c.misses ≠ 0 ∧
      calculateHitRate c
        = ((c.hits : ℚ) / ((c.hits : ℚ) + (c.misses : ℚ))) * 100) :=
  ⟨by decide, by decide,
    (lru_hit_rate 10 1000 ([] : List (CacheOp Nat))
      { maxSize := 10, ttlMs := 1000, cache := [], accessTime := []
        hits := 1, misses := 1 }
      (by decide) (by decide)).2.1⟩

/-- C10.  The cache-miss sentinel is `null` (`none`): a `get` on an absent
key returns it and leaves the cache unchanged; after storing `null` as the
value, `get` with the identical key returns the same `null` sentinel, and
`getWithStats` counts that read as a miss (misses incremented, hits
untouched) — a stored `null` is indistinguishable from absence on read. -/
theorem lru_null_is_miss (c : LRUCache V) (now nowr : Nat) (key : String)
    (habs : mapFind key c.cache = none) :
    c.get now key = (c, none) ∧
    ((c.set now key none).get nowr key).2 = none ∧
    ((c.set now key none).getWithStats nowr key).2 = none ∧
    ((c.set now key none).getWithStats nowr key).1.misses
      = (c.set now key none).misses + 1 ∧
    ((c.set now key none).getWithStats nowr key).1.hits
      = (c.set now key none).hits := by
  have hfindset : mapFind key (c.set now key none).cache
      = some ⟨none, now⟩ := by
    unfold LRUCache.set
    exact mapFind_mapSet_self key _ _
  have hget2 : ((c.set now key none).get nowr key).2 = none := by
    by_cases hexp : nowr - (⟨none, now⟩ : CacheEntry V).timestamp
        > (c.set now key none).ttlMs
    · simp [LRUCache.get, hfindset, hexp]
    · simp [LRUCache.get, hfindset, hexp]
  refine ⟨by simp [LRUCache.get, habs], hget2, ?_⟩
  rcases hg : (c.set now key none).get nowr key with ⟨c1, r⟩
  have hr : r = none := by rw [hg] at hget2; exact hget2
  subst hr
  have hh : c1.hits = (c.set now key none).hits := by
    have := (get_counters_eq (c.set now key none) nowr key).1
    rw [hg] at this; exact this
  have hm : c1.misses = (c.set now key none).misses := by
    have := (get_counters_eq (c.set now key none) nowr key).2
    rw [hg] at this; exact this
  unfold LRUCache.getWithStats
  rw [hg]
  exact ⟨rfl, by simp [hm], by simp [hh]⟩

/-- Witness for `lru_null_is_miss` on a fresh cache and a concrete key. -/
theorem lru_null_is_miss_witness :
    mapFind (generateKey "p" "translate" "[]")
        (LRUCache.init 10 1000 : LRUCache Nat).cache = none ∧
    (((LRUCache.init 10 1000 : LRUCache Nat).set 0
        (generateKey "p" "translate" "[]") none).getWithStats 1
        (generateKey "p" "translate" "[]")).2 = none :=
  ⟨by decide,
    (lru_null_is_miss (LRUCache.init 10 1000 : LRUCache Nat) 0 1
      (generateKey "p" "translate" "[]") (by decide)).2.2.1⟩

/-! ## Chapter navigator (`ChapterNavigator.processChapterSequence`)

The caller's step function is `processor : String → Except JsError Chapter`;
the navigator wraps each call in the `withRetry` embedded above
(3 attempts, 1000 ms base, 1.5× backoff), so an unrecoverable or
retry-exhausted failure surfaces as the wrapped `ProcessingError` message.
`SyosetuParser`-based fallback derivation (`processNextChapter`) is an
oracle parameter `fallback : String → Except String String` (its internals
are URL parsing, orthogonal to the navigation logic under test).  The JS
`while` loop may diverge on an infinite chain, so the loop is fuel-indexed;
fuel exhaustion returns the loop state as if the chain had ended, which no
claim below relies on.  `string.includes(needle)` is `strIncludes`. -/

def listStartsWith : List Char → List Char → Bool
  | [], _ => true
  | _ :: _, [] => false
  | a :: as, b :: bs => a == b && listStartsWith as bs

def listContainsSeq (needle : List Char) : List Char → Bool
  | [] => needle.isEmpty
  | b :: bs => listStartsWith needle (b :: bs) || listContainsSeq needle bs

/-- `hay.includes(needle)`. -/
def strIncludes (hay needle : String) : Bool :=
  listContainsSeq needle.data hay.data

structure Chapter where
  title : Option String
  nextChapterUrl : Option String
  deriving Repr, DecidableEq

/-- JS truthiness of `result.title` (`undefined`/`null`/`""` are falsy). -/
def titleTruthy (c : Chapter) : Bool :=
  match c.title with
  | some t => !(t == "")
  | none => false

structure NavigationError where
  message : String
  url : Option String
  step : Option String
  deriving Repr, DecidableEq

inductive NavFailure where
  | validation (message : String) (field : String)
  | navigation (e : NavigationError)
  deriving Repr, DecidableEq

structure NavState where
  currentUrl : String
  chapterCount : Nat
  results : List Chapter
  processedChapters : List String
  consecutiveErrors : Nat
  deriving Repr, DecidableEq

structure NavReport where
  results : List Chapter
  totalChapters : Nat
  startUrl : String
  lastUrl : String
  deriving Repr, DecidableEq

/-- One navigator step: `withRetry(() => processor(currentUrl), 3, 1000, 1.5)`
with a deterministic thunk; only the outcome feeds the loop. -/
def navProcessorCall (processor : String → Except JsError Chapter)
    (url : String) : Except String Chapter :=
  (withRetry (fun _ => processor url) 3 1000 (3 / 2)).result

/-- The `while` loop of `processChapterSequence`.  The catch-block logic
appears twice (for an invalid-title `ProcessingError` thrown inside the try,
and for a step failure) exactly as a single JS `catch` would receive both. -/
def navLoop (chapters : Nat) (processor : String → Except JsError Chapter)
    (fallback : String → Except String String) :
    Nat → NavState → Except NavigationError NavState
  | 0, s => .ok s
  | fuel + 1, s =>
    if s.currentUrl ≠ "" ∧ (chapters = 0 ∨ s.chapterCount < chapters) then
      if s.currentUrl ∈ s.processedChapters then .ok s
      else
        match navProcessorCall processor s.currentUrl with
        | .ok c =>
          if titleTruthy c then
            let s1 : NavState :=
              { currentUrl := s.currentUrl, chapterCount := s.chapterCount + 1
                results := s.results ++ [c]
                processedChapters := s.processedChapters ++ [s.currentUrl]
                consecutiveErrors := s.consecutiveErrors }
            match c.nextChapterUrl with
            | none => .ok s1
            | some nxt =>
              if nxt = "" then .ok s1
              else navLoop chapters processor fallback fuel
                { s1 with currentUrl := nxt, consecutiveErrors := 0 }
          else
            if strIncludes "Invalid chapter data received from processor" "404"
                || strIncludes "Invalid chapter data received from processor"
                    "Not Found" then
              .ok { s with consecutiveErrors := s.consecutiveErrors + 1 }
            else if s.consecutiveErrors + 1 < 3 then
              match fallback s.currentUrl with
              | .ok nxt => navLoop chapters processor fallback fuel
                  { s with
                    currentUrl := nxt
                    consecutiveErrors := s.consecutiveErrors + 1 }
              | .error em => .error
                  ⟨"Failed to navigate to next chapter after error: " ++ em,
                    some s.currentUrl, some "nextChapter"⟩
            else .error
              ⟨"Chapter processing failed after "
                  ++ toString (s.consecutiveErrors + 1) ++ " attempts: "
                  ++ "Invalid chapter data received from processor",
                some s.currentUrl, some "processChapter"⟩
        | .error msg =>
          if strIncludes msg "404" || strIncludes msg "Not Found" then
            .ok { s with consecutiveErrors := s.consecutiveErrors + 1 }
          else if s.consecutiveErrors + 1 < 3 then
            match fallback s.currentUrl with
            | .ok nxt => navLoop chapters processor fallback fuel
                { s with
                  currentUrl := nxt
                  consecutiveErrors := s.consecutiveErrors + 1 }
            | .error em => .error
                ⟨"Failed to navigate to next chapter after error: " ++ em,
                  some s.currentUrl, some "nextChapter"⟩
          else .error
            ⟨"Chapter processing failed after "
                ++ toString (s.consecutiveErrors + 1) ++ " attempts: " ++ msg,
              some s.currentUrl, some "processChapter"⟩
    else .ok s

/-- `processChapterSequence(startUrl, processor)`; `chapters = 0` means
"until the chain ends" (the default config). -/
def processChapterSequence (chapters : Nat)
    (processor : String → Except JsError Chapter)
    (fallback : String → Except String String) (fuel : Nat)
    (startUrl : String) : Except NavFailure NavReport :=
  if startUrl = "" then
    .error (.validation "Invalid start URL provided" "startUrl")
  else
    match navLoop chapters processor fallback fuel
        ⟨startUrl, 0, [], [], 0⟩ with
    | .ok s => .ok ⟨s.results, s.chapterCount, startUrl, s.currentUrl⟩
    | .error e => .error (.navigation e)

lemma navProcessorCall_error (processor : String → Except JsError Chapter)
    (url : String) (e : JsError) (hproc : processor url = .error e) :
    navProcessorCall processor url = .error (retryFailMessage 3 (some e)) := by
  rcases hb : isOperationalError e || e.code == some "ENOTFOUND"
      || e.code == some "ECONNRESET" with _ | _ <;>
    simp [navProcessorCall, withRetry, withRetryFrom, hproc, hb]

lemma navProcessorCall_ok (processor : String → Except JsError Chapter)
    (url : String) (c : Chapter) (hproc : processor url = .ok c) :
    navProcessorCall processor url = .ok c := by
  simp [navProcessorCall, withRetry, withRetryFrom, hproc]

lemma nodup_append_one (l : List String) (a : String) (h : l.Nodup)
    (ha : a ∉ l) : (l ++ [a]).Nodup := by
  refine h.append (List.nodup_singleton a) ?_
  intro x hx hxa
  simp only [List.mem_singleton] at hxa
  exact ha (hxa ▸ hx)

lemma navLoop_nodup (chapters : Nat) (processor : String → Except JsError Chapter)
    (fallback : String → Except String String) :
    ∀ (fuel : Nat) (s s' : NavState), s.processedChapters.Nodup →
      navLoop chapters processor fallback fuel s = .ok s' →
      s'.processedChapters.Nodup := by
  intro fuel
  induction fuel with
  | zero =>
    intro s s' hnd h
    simp only [navLoop] at h
    injection h with h1
    subst h1
    exact hnd
  | succ fuel ih =>
    intro s s' hnd h
    simp only [navLoop] at h
    repeat' split at h
    all_goals
      first
      | exact Except.noConfusion h
      | (refine ih _ _ ?_ h;
          first
          | exact hnd
          | exact nodup_append_one _ _ hnd (by assumption))
      | (injection h with h1; subst h1;
          first
          | exact hnd
          | exact nodup_append_one _ _ hnd (by assumption))

/-- C5.  `processChapterSequence` processes each identifier at most once per
run (the successfully processed identifiers, in processing order, are
pairwise distinct whenever the run's starting set is duplicate-free); the
chain A→B→C→(no next) yields `totalChapters = 3` with C the last processed
identifier; the cyclic chain A→B→A stops once A is seen again with
`totalChapters = 2`; and the u1→u2→(no next) scenario returns
`{totalChapters: 2, startUrl: "u1", lastUrl: "u2"}` with the two results in
processing order. -/
theorem nav_at_most_once (chapters : Nat)
    (processor : String → Except JsError Chapter)
    (fallback : String → Except String String) (fuel : Nat) (s s' : NavState)
    (hnd : s.processedChapters.Nodup)
    (hok : navLoop chapters processor fallback fuel s = .ok s') :
    s'.processedChapters.Nodup ∧
    processChapterSequence 0
        (fun u => if u = "A" then .ok ⟨some "tA", some "B"⟩
          else if u = "B" then .ok ⟨some "tB", some "C"⟩
          else if u = "C" then .ok ⟨some "tC", none⟩
          else .error ⟨false, false, none, "404"⟩)
        (fun _ => .error "no") 10 "A"
      = .ok ⟨[⟨some "tA", some "B"⟩, ⟨some "tB", some "C"⟩,
          ⟨some "tC", none⟩], 3, "A", "C"⟩ ∧
    processChapterSequence 0
        (fun u => if u = "A" then .ok ⟨some "tA", some "B"⟩
          else if u = "B" then .ok ⟨some "tB", some "A"⟩
          else .error ⟨false, false, none, "404"⟩)
        (fun _ => .error "no") 10 "A"
      = .ok ⟨[⟨some "tA", some "B"⟩, ⟨some "tB", some "A"⟩], 2, "A", "A"⟩ ∧
    processChapterSequence 0
        (fun u => if u = "u1" then .ok ⟨some "T1", some "u2"⟩
          else if u = "u2" then .ok ⟨some "T2", none⟩
          else .error ⟨false, false, none, "404"⟩)
        (fun _ => .error "no") 10 "u1"
      = .ok ⟨[⟨some "T1", some "u2"⟩, ⟨some "T2", none⟩], 2, "u1", "u2"⟩ :=
  ⟨navLoop_nodup chapters processor fallback fuel s s' hnd hok,
    by decide, by decide, by decide⟩

/-- Witness for `nav_at_most_once` on a concrete one-step run. -/
theorem nav_at_most_once_witness :
    (⟨"A", 0, [], [], 0⟩ : NavState).processedChapters.Nodup ∧
    navLoop 0 (fun _ => .ok ⟨some "t", none⟩) (fun _ => .error "no") 5
        ⟨"A", 0, [], [], 0⟩
      = .ok ⟨"A", 1, [⟨some "t", none⟩], ["A"], 0⟩ ∧
    (⟨"A", 1, [⟨some "t", none⟩], ["A"], 0⟩ : NavState).processedChapters.Nodup :=
  ⟨by decide, by decide,
    (nav_at_most_once 0 (fun _ => .ok ⟨some "t", none⟩) (fun _ => .error "no") 5
      ⟨"A", 0, [], [], 0⟩ ⟨"A", 1, [⟨some "t", none⟩], ["A"], 0⟩
      (by decide) (by decide)).1⟩

/-- C6.  When a navigator step fails after its retry wrapper is exhausted:
a failure message carrying "404" or "Not Found" ends the loop successfully
with the results accumulated so far; otherwise, while the consecutive-error
counter (after increment) is still below 3 a fallback next identifier is
derived and the loop continues from it; and the run aborts with a navigation
failure naming the current URL and the step exactly when fallback derivation
fails (step `nextChapter`) or consecutive errors reach 3 (step
`processChapter`). -/
theorem nav_error_recovery (chapters : Nat)
    (processor : String → Except JsError Chapter)
    (fallback : String → Except String String) (fuel : Nat) (s : NavState)
    (e : JsError)
    (hurl : s.currentUrl ≠ "") (hch : chapters = 0 ∨ s.chapterCount < chapters)
    (hmem : s.currentUrl ∉ s.processedChapters)
    (hproc : processor s.currentUrl = .error e) :
    ((strIncludes (retryFailMessage 3 (some e)) "404"
        || strIncludes (retryFailMessage 3 (some e)) "Not Found") = true →
      navLoop chapters processor fallback (fuel + 1) s
        = .ok { s with consecutiveErrors := s.consecutiveErrors + 1 }) ∧
    ((strIncludes (retryFailMessage 3 (some e)) "404"
        || strIncludes (retryFailMessage 3 (some e)) "Not Found") = false →
      s.consecutiveErrors + 1 < 3 →
      (∀ nxt, fallback s.currentUrl = .ok nxt →
        navLoop chapters processor fallback (fuel + 1) s
          = navLoop chapters processor fallback fuel
              { s with
                currentUrl := nxt
                consecutiveErrors := s.consecutiveErrors + 1 }) ∧
      (∀ em, fallback s.currentUrl = .error em →
        navLoop chapters processor fallback (fuel + 1) s
          = .error ⟨"Failed to navigate to next chapter after error: " ++ em,
              some s.currentUrl, some "nextChapter"⟩)) ∧
    ((strIncludes (retryFailMessage 3 (some e)) "404"
        || strIncludes (retryFailMessage 3 (some e)) "Not Found") = false →
      ¬ s.consecutiveErrors + 1 < 3 →
      navLoop chapters processor fallback (fuel + 1) s
        = .error ⟨"Chapter processing failed after "
              ++ toString (s.consecutiveErrors + 1) ++ " attempts: "
              ++ retryFailMessage 3 (some e),
            some s.currentUrl, some "processChapter"⟩) := by
  have hcall := navProcessorCall_error processor s.currentUrl e hproc
  refine ⟨?_, ?_, ?_⟩
  · intro h404
    simp only [navLoop]
    rw [if_pos (And.intro hurl hch), if_neg hmem, hcall]
    simp [h404]
  · intro h404 hlt
    constructor
    · intro nxt hfb
      simp only [navLoop]
      rw [if_pos (And.intro hurl hch), if_neg hmem, hcall]
      simp [h404, hlt, hfb]
    · intro em hfb
      simp only [navLoop]
      rw [if_pos (And.intro hurl hch), if_neg hmem, hcall]
      simp [h404, hlt, hfb]
  · intro h404 hge
    simp only [navLoop]
    rw [if_pos (And.intro hurl hch), if_neg hmem, hcall]
    simp [h404, hge]

/-- Witness for `nav_error_recovery`: a step failing with a 404 message ends
the run successfully. -/
theorem nav_error_recovery_witness :
    ((⟨"u", 0, [], [], 0⟩ : NavState).currentUrl ≠ "" ∧
      ((0 : Nat) = 0 ∨ (0 : Nat) < 0) ∧
      (⟨"u", 0, [], [], 0⟩ : NavState).currentUrl
        ∉ (⟨"u", 0, [], [], 0⟩ : NavState).processedChapters) ∧
    navLoop 0 (fun _ => .error ⟨false, false, none, "HTTP 404 at u"⟩)
        (fun _ => .error "no") 1 ⟨"u", 0, [], [], 0⟩
      = .ok ⟨"u", 0, [], [], 1⟩ :=
  ⟨⟨by decide, Or.inl rfl, by decide⟩,
    (nav_error_recovery 0 (fun _ => .error ⟨false, false, none, "HTTP 404 at u"⟩)
      (fun _ => .error "no") 0 ⟨"u", 0, [], [], 0⟩ ⟨false, false, none, "HTTP 404 at u"⟩
      (by decide) (Or.inl rfl) (by decide) rfl).1 (by decide)⟩

end NarouCast
